import Mathlib

/-!
Verification of the name-extraction and cross-document verification pipeline
(`app.py`). The Python source is shallowly embedded: strings are Lean
`String`s manipulated through their underlying `List Char`, Python `dict`s
holding the extracted name fields are insertion-ordered association lists,
fallible steps return `Option`, and the OCR engine (an external collaborator)
is modelled as an input: each image comes with an optional pair of the
rendered transcript and the page/block/line/word token structure, where
`none` stands for an exception raised during OCR or parsing.
-/

/-! ### Python string primitives -/

/-- Characters stripped by Python `str.strip()` (whitespace). -/
def pyWs (c : Char) : Bool := c.isWhitespace

/-- Drop leading and trailing whitespace from a character list
(the list-level body of Python `str.strip()`). -/
def trimChars (l : List Char) : List Char :=
  ((l.dropWhile pyWs).reverse.dropWhile pyWs).reverse

/-- Python `s.strip()`. -/
def pyStrip (s : String) : String := ⟨trimChars s.data⟩

/-- Python `s.lower()` (ASCII case mapping; the accented characters appearing
in this program, such as the é of "Prénom", are already lowercase and are
left unchanged, matching CPython on these inputs). -/
def pyLower (s : String) : String := ⟨s.data.map Char.toLower⟩

/-- Split a character list at every character satisfying `p`, keeping empty
segments, as Python `str.split(sep)` does for a one-character separator. -/
def splitOnPred (p : Char → Bool) : List Char → List (List Char)
  | [] => [[]]
  | c :: cs =>
    if p c then [] :: splitOnPred p cs
    else
      match splitOnPred p cs with
      | [] => [[c]]
      | s :: ss => (c :: s) :: ss

/-- Python `s.split(c)` for a one-character separator `c`. -/
def pySplitChar (c : Char) (s : String) : List String :=
  (splitOnPred (fun x => x == c) s.data).map (fun l => (⟨l⟩ : String))

/-- Python `s.split("\n")`: the lines of the transcript. -/
def pySplitLines (s : String) : List String := pySplitChar '\n' s

/-- Python `s.split()` (no separator): split on whitespace runs and drop the
empty pieces. -/
def pySplitWs (s : String) : List String :=
  ((splitOnPred pyWs s.data).filter (fun l => !l.isEmpty)).map (fun l => (⟨l⟩ : String))

/-- Fuel-driven body of Python `str.split(sep)` for a multi-character
separator: cut at every non-overlapping occurrence of `sep`, scanning left to
right. The fuel only serves termination; with `fuel ≥ l.length` (as used
below) the recursion never exhausts it. -/
def splitOnSeqF (sep : List Char) : Nat → List Char → List (List Char)
  | _, [] => [[]]
  | 0, l => [l]
  | fuel + 1, c :: cs =>
    if sep ≠ [] ∧ sep.isPrefixOf (c :: cs) then
      [] :: splitOnSeqF sep fuel ((c :: cs).drop sep.length)
    else
      match splitOnSeqF sep fuel cs with
      | [] => [[c]]
      | s :: ss => (c :: s) :: ss

/-- Python `s.split(sep)` for a string separator. -/
def pySplitStr (sep s : String) : List String :=
  (splitOnSeqF sep.data s.data.length s.data).map (fun l => (⟨l⟩ : String))

/-- Substring test on character lists: Python `needle in hay`. -/
def listContains (hay needle : List Char) : Bool :=
  needle.isPrefixOf hay ||
    match hay with
    | [] => false
    | _ :: t => listContains t needle

/-- Python `needle in hay` on strings. -/
def strContains (hay needle : String) : Bool := listContains hay.data needle.data

/-! ### 4.1 Value Normalizer (`normalize_value`) -/

/-- Function `normalize_value` from `app.py`: `value.replace(":", "").strip()`.
Replacing the one-character pattern `":"` by the empty string removes every
colon, i.e. filters them out. -/
def normalize_value (value : String) : String :=
  pyStrip ⟨value.data.filter (fun c => c != ':')⟩

/-! ### Helper lemmas about trimming -/

theorem dropWhile_dropWhile (p : α → Bool) (l : List α) :
    (l.dropWhile p).dropWhile p = l.dropWhile p := by
  induction l with
  | nil => rfl
  | cons h t ih =>
    by_cases hp : p h = true
    · simp [List.dropWhile_cons, hp, ih]
    · simp [List.dropWhile_cons, hp]

theorem dropWhile_head?_false (p : α → Bool) (l : List α) :
    ∀ a, (l.dropWhile p).head? = some a → p a = false := by
  induction l with
  | nil => intro a h; simp at h
  | cons h t ih =>
    intro a ha
    by_cases hp : p h = true
    · exact ih a (by simpa [List.dropWhile_cons, hp] using ha)
    · simp only [List.dropWhile_cons, if_neg hp, List.head?_cons, Option.some.injEq] at ha
      subst ha
      exact Bool.eq_false_iff.mpr hp

theorem dropWhile_eq_self_of_head (p : α → Bool) (l : List α)
    (h : ∀ a, l.head? = some a → p a = false) : l.dropWhile p = l := by
  cases l with
  | nil => rfl
  | cons x xs =>
    have hx : p x = false := h x rfl
    simp [List.dropWhile_cons, hx]

theorem trimChars_append_decomp (l : List Char) :
    ∃ w, l.dropWhile pyWs = trimChars l ++ w := by
  refine ⟨((l.dropWhile pyWs).reverse.takeWhile pyWs).reverse, ?_⟩
  unfold trimChars
  have h := List.takeWhile_append_dropWhile (p := pyWs) (l := (l.dropWhile pyWs).reverse)
  calc l.dropWhile pyWs
      = (l.dropWhile pyWs).reverse.reverse := by rw [List.reverse_reverse]
    _ = ((l.dropWhile pyWs).reverse.takeWhile pyWs
          ++ (l.dropWhile pyWs).reverse.dropWhile pyWs).reverse := by rw [h]
    _ = ((l.dropWhile pyWs).reverse.dropWhile pyWs).reverse
          ++ ((l.dropWhile pyWs).reverse.takeWhile pyWs).reverse := by
        rw [List.reverse_append]

theorem trimChars_dropWhile (l : List Char) :
    (trimChars l).dropWhile pyWs = trimChars l := by
  obtain ⟨w, hw⟩ := trimChars_append_decomp l
  apply dropWhile_eq_self_of_head
  intro a ha
  apply dropWhile_head?_false pyWs l
  rw [hw]
  cases htc : trimChars l with
  | nil => rw [htc] at ha; simp at ha
  | cons b bs =>
    rw [htc] at ha
    simp only [List.head?_cons, Option.some.injEq] at ha
    subst ha
    simp [List.head?_append, htc]

theorem trimChars_idem (l : List Char) : trimChars (trimChars l) = trimChars l := by
  have e1 : trimChars (trimChars l)
      = (((trimChars l).dropWhile pyWs).reverse.dropWhile pyWs).reverse := rfl
  rw [e1, trimChars_dropWhile l]
  have e2 : (trimChars l).reverse = (l.dropWhile pyWs).reverse.dropWhile pyWs := by
    unfold trimChars; rw [List.reverse_reverse]
  rw [e2, dropWhile_dropWhile, ← e2, List.reverse_reverse]

theorem mem_of_mem_trimChars {a : Char} {l : List Char} (h : a ∈ trimChars l) : a ∈ l := by
  unfold trimChars at h
  rw [List.mem_reverse] at h
  have h2 : a ∈ (l.dropWhile pyWs).reverse := List.dropWhile_sublist _ |>.mem h
  rw [List.mem_reverse] at h2
  exact List.dropWhile_sublist _ |>.mem h2

theorem filter_trimChars_filter (q : Char → Bool) (l : List Char) :
    (trimChars (l.filter q)).filter q = trimChars (l.filter q) := by
  rw [List.filter_eq_self]
  intro a ha
  exact List.of_mem_filter (mem_of_mem_trimChars ha)

/-- Claim C9: the Value Normalizer is idempotent
(`normalize(normalize(x)) == normalize(x)` for every string `x`), and on the
concrete inputs of the spec: `normalize(" foo: ") = "foo"` and
`normalize("foo") = "foo"`. -/
theorem C9_thm :
    (∀ x : String, normalize_value (normalize_value x) = normalize_value x) ∧
      normalize_value " foo: " = "foo" ∧ normalize_value "foo" = "foo" := by
  refine ⟨?_, by decide, by decide⟩
  intro x
  have h : trimChars ((trimChars (x.data.filter (fun c => c != ':'))).filter (fun c => c != ':'))
      = trimChars (x.data.filter (fun c => c != ':')) := by
    rw [filter_trimChars_filter, trimChars_idem]
  exact congrArg String.mk h

/-! ### RawFieldMap: Python dict with string keys and values

The source stores extracted fields in a `dict`; we model it as an
insertion-ordered association list with unique keys, with assignment
overwriting in place and lookup by key, exactly as CPython does. -/

/-- Intermediate, unformatted name-component data keyed by label. -/
abbrev RawFieldMap := List (String × String)

/-- Python `k in m` on a dict. -/
def dictContainsKey (m : RawFieldMap) (k : String) : Bool :=
  m.any (fun p => p.1 == k)

/-- Python `m[k]` lookup (as an `Option`). -/
def dictGet (m : RawFieldMap) (k : String) : Option String :=
  (m.find? (fun p => p.1 == k)).map (fun p => p.2)

/-- Python `m[k]` lookup where the key is known present. -/
def dictGetD (m : RawFieldMap) (k : String) : String :=
  (dictGet m k).getD ""

/-- Python `m[k] = v`: overwrite the existing binding in place, or append a
new one. -/
def dictSet (m : RawFieldMap) (k v : String) : RawFieldMap :=
  if dictContainsKey m k then m.map (fun p => if p.1 == k then (k, v) else p)
  else m ++ [(k, v)]

/-! ### Keywords and the Keyword Line Extractor (`extract_names`) -/

/-- The module-level keyword list of `app.py`. -/
def keywords : List String := ["Prénom", "Nom", "Le candidat(e)"]

/-- Function `extract_names` from `app.py`: for each transcript line, the first
keyword (in list order) occurring in the line is bound, in the shared map, to
`line.split(keyword)[-1].strip()`; the `break` after a match is rendered by
`List.find?`. -/
def extract_names (text : String) (kws : List String) : RawFieldMap :=
  (pySplitLines text).foldl
    (fun name_info line =>
      match kws.find? (fun keyword => strContains line keyword) with
      | some keyword =>
          dictSet name_info keyword (pyStrip ((pySplitStr keyword line).getLastD ""))
      | none => name_info)
    []

/-! ### 4.5 Name Formatter (`reformat_name`) -/

/-- Function `reformat_name` from `app.py`. -/
def reformat_name (name_info : RawFieldMap) : Option String :=
  if dictContainsKey name_info "Prénom" && dictContainsKey name_info "Nom" then
    some (normalize_value (dictGetD name_info "Prénom") ++ " "
      ++ normalize_value (dictGetD name_info "Nom"))
  else if dictContainsKey name_info "Le candidat(e)" then
    let full_name := normalize_value (dictGetD name_info "Le candidat(e)")
    let parts := pySplitWs full_name
    if parts.length = 2 then some (parts.getD 1 "" ++ " " ++ parts.getD 0 "")
    else some full_name
  else none

/-- Claim C3 counterexample: on the transcript lines
`"Prénom: Jean"` / `"Nom: Dupont"`, the keyword extractor does NOT return the
map binding `"Prénom"` to `"Jean"`: Python `strip()` removes only whitespace,
so the colon after the keyword survives and the stored value is `": Jean"`
(resp. `": Dupont"`). -/
theorem C3_counterexample :
    dictGet (extract_names "Prénom: Jean\nNom: Dupont" keywords) "Prénom" = some ": Jean" ∧
      (": Jean" : String) ≠ "Jean" := by
  constructor
  · decide
  · decide

/-- Claim C3 (amended): the keyword extractor on those lines returns the map
binding `"Prénom"` to `": Jean"` and `"Nom"` to `": Dupont"` (the colon
survives the whitespace-only trim), and the Name Formatter applied to that
result — whose normalizer removes the colons — returns `"Jean Dupont"`. -/
theorem C3_amended_thm :
    extract_names "Prénom: Jean\nNom: Dupont" keywords
        = [("Prénom", ": Jean"), ("Nom", ": Dupont")] ∧
      reformat_name (extract_names "Prénom: Jean\nNom: Dupont" keywords)
        = some "Jean Dupont" := by
  constructor
  · decide
  · decide

/-- Claim C7: on a map lacking the first-name/last-name pair, the Name
Formatter returns, when the combined-candidate label is present, the
normalized value split on whitespace — the two tokens reversed and joined by
a single space when there are exactly 2, the normalized value unchanged
otherwise — and returns absent when the combined-candidate label is missing
too. -/
theorem C7_thm (m : RawFieldMap)
    (h : (dictContainsKey m "Prénom" && dictContainsKey m "Nom") = false) :
    reformat_name m =
      (if dictContainsKey m "Le candidat(e)" then
        some (if (pySplitWs (normalize_value (dictGetD m "Le candidat(e)"))).length = 2 then
          (pySplitWs (normalize_value (dictGetD m "Le candidat(e)"))).getD 1 "" ++ " "
            ++ (pySplitWs (normalize_value (dictGetD m "Le candidat(e)"))).getD 0 ""
        else normalize_value (dictGetD m "Le candidat(e)"))
      else none) := by
  unfold reformat_name
  rw [h]
  simp only [Bool.false_eq_true, if_false]
  by_cases hc : dictContainsKey m "Le candidat(e)" = true
  · simp only [hc, if_true]
    by_cases hl : (pySplitWs (normalize_value (dictGetD m "Le candidat(e)"))).length = 2
    · simp [hl]
    · simp [hl]
  · simp only [Bool.not_eq_true] at hc
    simp [hc]

/-- Witness for C7 at the concrete map binding the combined-candidate label
to `"Dupont Jean"`: the hypothesis holds and the formatter reverses the two
tokens, returning `"Jean Dupont"`. -/
theorem C7_witness :
    (dictContainsKey [("Le candidat(e)", "Dupont Jean")] "Prénom"
        && dictContainsKey [("Le candidat(e)", "Dupont Jean")] "Nom") = false ∧
      reformat_name [("Le candidat(e)", "Dupont Jean")] = some "Jean Dupont" :=
  ⟨by decide, (C7_thm [("Le candidat(e)", "Dupont Jean")] (by decide)).trans (by decide)⟩

/-! ### 4.3 Capitalized-Token Fallback Extractor (`extract_capital_words`)

The hierarchical token structure of an OCR result (pages → blocks → lines →
words, each word carrying its recognized string) is modelled as a nested
list of the word strings. -/

/-- The page → block → line → word token structure of an OCR result. -/
abbrev Pages := List (List (List (List String)))

/-- Python `str.isupper()`: at least one cased character and no lowercase
cased character (ASCII letters model the cased characters). -/
def pyIsUpper (s : String) : Bool :=
  s.data.any (fun c => c.isUpper || c.isLower) && s.data.all (fun c => !c.isLower)

/-- The qualifying-token test of `extract_capital_words`:
`word_text.isupper() and len(word_text) > 2`. -/
def isCapitalWord (w : String) : Bool :=
  pyIsUpper w && decide (2 < w.data.length)

/-- Function `extract_capital_words` from `app.py`: the four nested loops appending
every qualifying word, in reading order, to the accumulator. -/
def extract_capital_words (pages : Pages) : List String :=
  pages.foldl
    (fun acc page => page.foldl
      (fun acc block => block.foldl
        (fun acc line => line.foldl
          (fun acc word => if isCapitalWord word then acc ++ [word] else acc)
          acc)
        acc)
      acc)
    []

/-- Lines 83–87 of `app.py` as a strategy: the two-entry map from the
qualifying tokens at indices 5 and 6 when at least 7 qualify, the empty map
otherwise. -/
def capitalFallback (pages : Pages) : RawFieldMap :=
  let capital_words := extract_capital_words pages
  if 7 ≤ capital_words.length then
    [("Prénom", capital_words.getD 5 ""), ("Nom", capital_words.getD 6 "")]
  else []

theorem foldl_append_filter (p : α → Bool) (l : List α) (acc : List α) :
    l.foldl (fun a x => if p x then a ++ [x] else a) acc = acc ++ l.filter p := by
  induction l generalizing acc with
  | nil => simp
  | cons h t ih =>
    by_cases hp : p h = true
    · simp [List.foldl_cons, hp, ih]
    · simp [List.foldl_cons, hp, ih, Bool.not_eq_true _ ▸ hp]

theorem extract_capital_words_line (line : List String) (acc : List String) :
    line.foldl (fun a w => if isCapitalWord w then a ++ [w] else a) acc
      = acc ++ line.filter isCapitalWord :=
  foldl_append_filter isCapitalWord line acc

theorem extract_capital_words_block (block : List (List String)) (acc : List String) :
    block.foldl
      (fun a line => line.foldl (fun a w => if isCapitalWord w then a ++ [w] else a) a)
      acc = acc ++ block.flatten.filter isCapitalWord := by
  induction block generalizing acc with
  | nil => simp
  | cons l t ih =>
    simp only [List.foldl_cons, List.flatten_cons, List.filter_append]
    rw [extract_capital_words_line, ih, List.append_assoc]

theorem extract_capital_words_page (page : List (List (List String))) (acc : List String) :
    page.foldl
      (fun a block => block.foldl
        (fun a line => line.foldl (fun a w => if isCapitalWord w then a ++ [w] else a) a) a)
      acc = acc ++ page.flatten.flatten.filter isCapitalWord := by
  induction page generalizing acc with
  | nil => simp
  | cons b t ih =>
    simp only [List.foldl_cons, List.flatten_cons, List.flatten_append, List.filter_append]
    rw [extract_capital_words_block, ih, List.append_assoc]

theorem extract_capital_words_pages (pages : Pages) (acc : List String) :
    pages.foldl
      (fun a page => page.foldl
        (fun a block => block.foldl
          (fun a line => line.foldl (fun a w => if isCapitalWord w then a ++ [w] else a) a) a) a)
      acc = acc ++ pages.flatten.flatten.flatten.filter isCapitalWord := by
  induction pages generalizing acc with
  | nil => simp
  | cons p t ih =>
    simp only [List.foldl_cons, List.flatten_cons, List.flatten_append, List.filter_append]
    rw [extract_capital_words_page, ih, List.append_assoc]

theorem extract_capital_words_eq (pages : Pages) :
    extract_capital_words pages = pages.flatten.flatten.flatten.filter isCapitalWord := by
  unfold extract_capital_words
  rw [extract_capital_words_pages]
  simp

/-- Claim C6: the capitalized-token fallback filters the word tokens, in
reading order (the flattening of the page → block → line → word structure),
to those fully uppercase and longer than 2 characters; with at least 7
qualifying tokens it returns the two-entry map binding the first-name label
to the qualifying token at index 5 and the last-name label to the one at
index 6, and with fewer than 7 it returns the empty map. -/
theorem C6_thm (pages : Pages) :
    capitalFallback pages =
      (if 7 ≤ (pages.flatten.flatten.flatten.filter isCapitalWord).length then
        [("Prénom", (pages.flatten.flatten.flatten.filter isCapitalWord).getD 5 ""),
          ("Nom", (pages.flatten.flatten.flatten.filter isCapitalWord).getD 6 "")]
      else []) := by
  unfold capitalFallback
  rw [extract_capital_words_eq]

/-! ### 4.4 Colon-Pattern Fallback Extractor (lines 90–102 of `app.py`) -/

/-- One iteration of the colon-pattern fallback loop for line `i`: the
colon check (split the line on colons, lowercase and strip the key, take the stripped second part
as value; a key containing `"nom"` assigns the last-name label, otherwise a
key containing `"prénom"`/`"prenom"` assigns the first-name label) followed
by the independent candidate-lookahead check. -/
def colonStep (lines : List String) (name_info : RawFieldMap) (i : Nat) (line : String) :
    RawFieldMap :=
  let m1 :=
    if strContains line ":" then
      let parts := pySplitChar ':' line
      let key := pyLower (pyStrip (parts.getD 0 ""))
      let value := pyStrip (parts.getD 1 "")
      if strContains key "nom" then dictSet name_info "Nom" value
      else if strContains key "prénom" || strContains key "prenom" then
        dictSet name_info "Prénom" value
      else name_info
    else name_info
  if strContains (pyLower line) "candidat" && decide (i + 1 < lines.length) then
    dictSet m1 "Le candidat(e)" (pyStrip (lines.getD (i + 1) ""))
  else m1

/-- The colon-pattern fallback of `process_image` (starting, as in the
source, from the empty map left over by the failed keyword extraction). -/
def colonFallback (text : String) : RawFieldMap :=
  let lines := pySplitLines text
  lines.enum.foldl (fun name_info il => colonStep lines name_info il.1 il.2) []

/-! ### 4.6 Single-Image Name Resolver (`process_image`)

The call to the OCR engine is modelled as an input of the function: `none`
stands for an exception raised inside the `try` block (caught by the
catch-all handler of the source), `some (extracted_text, pages)` for a successful
OCR run returning the rendered transcript and the token structure. -/

/-- Function `process_image` from `app.py`. -/
def process_image (ocr : Option (String × Pages)) : Option RawFieldMap :=
  match ocr with
  | none => none
  | some tp =>
    let extracted_text := tp.1
    let name_info := extract_names extracted_text keywords
    if !name_info.isEmpty then some name_info
    else
      let capital_words := extract_capital_words tp.2
      if 7 ≤ capital_words.length then
        some [("Prénom", capital_words.getD 5 ""), ("Nom", capital_words.getD 6 "")]
      else
        let name_info2 := colonFallback extracted_text
        if !name_info2.isEmpty then some name_info2 else none

/-- Substring containment is transitive through an infix decomposition:
if `hay` contains `pre ++ mid ++ suf` then it contains `mid`. -/
theorem listContains_iff (hay needle : List Char) :
    listContains hay needle = true ↔ ∃ l r, hay = l ++ needle ++ r := by
  induction hay with
  | nil =>
    unfold listContains
    simp only [Bool.or_false]
    constructor
    · intro h
      have : needle = [] := by
        cases needle with
        | nil => rfl
        | cons c cs => simp [List.isPrefixOf] at h
      exact ⟨[], [], by simp [this]⟩
    · rintro ⟨l, r, h⟩
      have h2 := List.append_eq_nil.mp h.symm
      have h3 := List.append_eq_nil.mp h2.1
      simp [h3.2, List.isPrefixOf]
  | cons c cs ih =>
    unfold listContains
    constructor
    · intro h
      rcases Bool.or_eq_true _ _ |>.mp h with hpre | hrest
      · rcases List.isPrefixOf_iff_prefix.mp hpre with ⟨r, hr⟩
        exact ⟨[], r, by simp [hr.symm]⟩
      · rcases ih.mp hrest with ⟨l, r, hlr⟩
        exact ⟨c :: l, r, by simp [hlr]⟩
    · rintro ⟨l, r, hlr⟩
      cases l with
      | nil =>
        apply Bool.or_eq_true _ _ |>.mpr
        left
        exact List.isPrefixOf_iff_prefix.mpr ⟨r, by simpa using hlr.symm⟩
      | cons x xs =>
        apply Bool.or_eq_true _ _ |>.mpr
        right
        simp only [List.cons_append, List.cons.injEq] at hlr
        exact ih.mpr ⟨xs, r, hlr.2⟩

/-- Any key containing `"prénom"` or its unaccented variant `"prenom"` also
contains `"nom"`, so the first-name branch of the colon-pattern fallback can
never run. -/
theorem prenom_contains_nom (key : String) :
    (strContains key "prénom" || strContains key "prenom") = true →
      strContains key "nom" = true := by
  intro h
  rcases Bool.or_eq_true _ _ |>.mp h with h1 | h1
  · rcases (listContains_iff _ _).mp h1 with ⟨l, r, hlr⟩
    apply (listContains_iff key.data "nom".data).mpr
    refine ⟨l ++ ['p', 'r', 'é'], r, ?_⟩
    rw [hlr]
    simp [List.append_assoc]
  · rcases (listContains_iff _ _).mp h1 with ⟨l, r, hlr⟩
    apply (listContains_iff key.data "nom".data).mpr
    refine ⟨l ++ ['p', 'r', 'e'], r, ?_⟩
    rw [hlr]
    simp [List.append_assoc]

/-- Claim C4 (code bug): on a colon line whose key is `prénom`/`prenom`, the
value lands under the LAST-name label `"Nom"`, not the first-name label: the
lowercased key contains `"nom"` as a substring of `"prénom"`, the last-name
branch fires first, and the `elif` first-name branch is unreachable
(third conjunct). Evaluations at the failing input: the fallback extractor on
the line `"Prénom: Jean"` binds `"Nom"`, and the whole resolver on the
transcript `"prenom: Jean"` (which reaches the fallback because the
case-sensitive keyword pass misses it) returns the map binding `"Nom"`. -/
theorem C4_code_eval :
    colonFallback "Prénom: Jean" = [("Nom", "Jean")] ∧
      process_image (some ("prenom: Jean", [])) = some [("Nom", "Jean")] ∧
      ∀ key : String, (strContains key "prénom" || strContains key "prenom") = true →
        strContains key "nom" = true := by
  refine ⟨by decide, by decide, prenom_contains_nom⟩

/-- Witness for the universally quantified conjunct of `C4_code_eval` at the
concrete key `"prénom"`. -/
theorem C4_code_eval_witness :
    (strContains "prénom" "prénom" || strContains "prénom" "prenom") = true ∧
      strContains "prénom" "nom" = true :=
  ⟨by decide, C4_code_eval.2.2 "prénom" (by decide)⟩

/-- Claim C8: the resolver catches the OCR/parsing exception case (`none`
input) and yields an absent result — being a total Lean function it
propagates nothing — and on a successful OCR run it applies the three
strategies in the fixed order keyword extraction, capitalized-token
fallback, colon-pattern fallback, returning the first non-empty RawFieldMap
(`List.find?` over the ordered strategy list). -/
theorem C8_thm :
    process_image none = none ∧
      ∀ (t : String) (p : Pages),
        process_image (some (t, p)) =
          [extract_names t keywords, capitalFallback p, colonFallback t].find?
            (fun m => !m.isEmpty) := by
  refine ⟨rfl, ?_⟩
  intro t p
  show (if !(extract_names t keywords).isEmpty then some (extract_names t keywords)
      else if 7 ≤ (extract_capital_words p).length then
        some [("Prénom", (extract_capital_words p).getD 5 ""),
          ("Nom", (extract_capital_words p).getD 6 "")]
      else if !(colonFallback t).isEmpty then some (colonFallback t) else none)
    = [extract_names t keywords, capitalFallback p, colonFallback t].find?
        (fun m => !m.isEmpty)
  by_cases h1 : (extract_names t keywords).isEmpty
  · by_cases h2 : 7 ≤ (extract_capital_words p).length
    · simp [h1, h2, List.find?, capitalFallback]
    · by_cases h3 : (colonFallback t).isEmpty
      · simp [h1, h2, h3, List.find?, capitalFallback]
      · simp [h1, h2, h3, List.find?, capitalFallback]
  · simp [h1, List.find?]

/-! ### 4.7 Folder Verifier (the per-folder body of the `/validate` route)

The HTTP upload, archive extraction and image discovery are external
collaborators; the per-folder input is the ordered list of discovered image
files, each given as its base name together with its OCR outcome. -/

/-- Python truthiness of `names` (either `None` or a dict). -/
def pyTruthyDict : Option RawFieldMap → Bool
  | none => false
  | some m => !m.isEmpty

/-- Python truthiness of `formatted_name` (either `None` or a string: the
empty string is falsy). -/
def pyTruthyStr : Option String → Bool
  | none => false
  | some s => !s.isEmpty

/-- The per-image outcome of the (black-box) OCR engine. -/
abbrev OcrOutcome := Option (String × Pages)

/-- One entry of `file_details`. -/
structure FileDetail where
  file : String
  extracted_name : Option String
  raw_data : Option RawFieldMap
deriving DecidableEq, Repr

/-- One entry of `errors`. -/
structure ErrRec where
  file : String
  error : String
deriving DecidableEq, Repr

/-- One per-folder record of the `/validate` response. -/
structure FolderOut where
  cin : String
  is_correct : Bool
  verified_name : Option String
  errors : List ErrRec
  file_details : List FileDetail
deriving DecidableEq, Repr

/-- The error message of line 229 of `app.py`. -/
def noNameMsg : String := "No name could be extracted"

/-- The error message of line 234 of `app.py` (f-string around the found
name). -/
def mismatchMsg (found : String) : String :=
  "Name mismatch: found \x27" ++ found ++ "\x27"

/-- Line 238 of `app.py`: the candidate identifier is the part of the folder name before the first underscore, or the whole folder name without one. -/
def cinOf (subdir : String) : String :=
  if strContains subdir "_" then (pySplitChar '_' subdir).getD 0 "" else subdir

/-- Lines 202–209 of `app.py` for one image:
`names = process_image(...)`,
`formatted_name = reformat_name(names) if names else None`, and the
`file_details` entry. -/
def detailOf (fp : String × OcrOutcome) : FileDetail :=
  let names := process_image fp.2
  let formatted_name := if pyTruthyDict names then reformat_name (names.getD []) else none
  ⟨fp.1, formatted_name, names⟩

/-- Lines 211–212: `if formatted_name: extracted_names.append(...)`. -/
def collectName (acc : List String) (d : FileDetail) : List String :=
  if pyTruthyStr d.extracted_name then acc ++ [d.extracted_name.getD ""] else acc

/-- Lines 225–235, one iteration of the error loop:
`if not detail["extracted_name"]:` append the extraction-failure record,
`elif not is_correct and detail["extracted_name"] != first_name:` append the
mismatch record. -/
def errStep (is_correct : Bool) (first_name : String) (errs : List ErrRec) (d : FileDetail) :
    List ErrRec :=
  if !pyTruthyStr d.extracted_name then errs ++ [⟨d.file, noNameMsg⟩]
  else if !is_correct && d.extracted_name.getD "" != first_name then
    errs ++ [⟨d.file, mismatchMsg (d.extracted_name.getD "")⟩]
  else errs

/-- The per-folder body of `validate_folder` (lines 197–246 of `app.py`).
Every image is processed into a `file_details` entry; the truthy formatted
names are collected in order; when at least one was collected, `is_correct`,
`verified_name` and the error records are computed from the first one,
otherwise they keep their initializers (`False`, `None`, `[]`). -/
def validate_folder_one (subdir : String) (images : List (String × OcrOutcome)) : FolderOut :=
  let file_details := images.map detailOf
  let extracted_names := file_details.foldl collectName []
  if extracted_names.isEmpty then
    ⟨cinOf subdir, false, none, [], file_details⟩
  else
    let first_name := extracted_names.headD ""
    let is_correct := extracted_names.all (fun name => name == first_name)
    ⟨cinOf subdir, is_correct, if is_correct then some first_name else none,
      file_details.foldl (errStep is_correct first_name) [], file_details⟩

/-! ### Observables of a folder result and characterization lemmas -/

/-- All FormattedNames extracted in a folder, in file order (the claim-side
notion: every file whose formatter returned a string, empty or not). -/
def allExtractedNames (l : List FileDetail) : List String :=
  l.filterMap (fun d => d.extracted_name)

/-- The names the source actually collects in `extracted_names`: the truthy
(non-empty) FormattedNames, in file order. -/
def truthyNames (l : List FileDetail) : List String :=
  (allExtractedNames l).filter (fun s => !s.isEmpty)

/-- The selection function underlying one iteration of the error loop:
`errStep` appends exactly the record `errSel` selects. -/
def errSel (is_correct : Bool) (first_name : String) (d : FileDetail) : Option ErrRec :=
  if !pyTruthyStr d.extracted_name then some ⟨d.file, noNameMsg⟩
  else if !is_correct && d.extracted_name.getD "" != first_name then
    some ⟨d.file, mismatchMsg (d.extracted_name.getD "")⟩
  else none

theorem errStep_eq (b : Bool) (f : String) (errs : List ErrRec) (d : FileDetail) :
    errStep b f errs d = errs ++ (errSel b f d).toList := by
  unfold errStep errSel
  by_cases h1 : pyTruthyStr d.extracted_name = true <;>
    by_cases h2 : (!b && d.extracted_name.getD "" != f) = true <;>
      simp [h1, h2]

theorem collectName_foldl (l : List FileDetail) (acc : List String) :
    l.foldl collectName acc = acc ++ truthyNames l := by
  induction l generalizing acc with
  | nil => simp [truthyNames, allExtractedNames]
  | cons d t ih =>
    rw [List.foldl_cons, ih]
    unfold collectName truthyNames allExtractedNames
    cases hd : d.extracted_name with
    | none => simp [pyTruthyStr, hd, truthyNames, allExtractedNames, List.filterMap_cons]
    | some s =>
      by_cases hs : s.isEmpty
      · simp [pyTruthyStr, hd, hs, truthyNames, allExtractedNames, List.filterMap_cons]
      · simp [pyTruthyStr, hd, hs, truthyNames, allExtractedNames, List.filterMap_cons,
          List.append_assoc]

theorem errStep_foldl (b : Bool) (f : String) (l : List FileDetail) (acc : List ErrRec) :
    l.foldl (errStep b f) acc = acc ++ l.filterMap (errSel b f) := by
  induction l generalizing acc with
  | nil => simp
  | cons d t ih =>
    rw [List.foldl_cons, errStep_eq, ih, List.filterMap_cons]
    cases hsel : errSel b f d with
    | none => simp [hsel]
    | some e => simp [hsel, List.append_assoc]

/-- Characterization of `validate_folder_one` with its folds replaced by filters. -/
theorem validate_folder_one_eq (subdir : String) (images : List (String × OcrOutcome)) :
    validate_folder_one subdir images =
      (if (truthyNames (images.map detailOf)).isEmpty then
        ⟨cinOf subdir, false, none, [], images.map detailOf⟩
      else
        ⟨cinOf subdir,
          (truthyNames (images.map detailOf)).all
            (fun n => n == (truthyNames (images.map detailOf)).headD ""),
          if (truthyNames (images.map detailOf)).all
              (fun n => n == (truthyNames (images.map detailOf)).headD "") then
            some ((truthyNames (images.map detailOf)).headD "")
          else none,
          (images.map detailOf).filterMap
            (errSel
              ((truthyNames (images.map detailOf)).all
                (fun n => n == (truthyNames (images.map detailOf)).headD ""))
              ((truthyNames (images.map detailOf)).headD "")),
          images.map detailOf⟩ : FolderOut) := by
  simp only [validate_folder_one]
  rw [collectName_foldl, errStep_foldl]
  simp only [List.nil_append]

theorem headD_mem {l : List String} (h : l ≠ []) : l.headD "" ∈ l := by
  cases l with
  | nil => exact absurd rfl h
  | cons x xs => simp

theorem all_eq_headD_iff (l : List String) (hl : l ≠ []) :
    (l.all (fun n => n == l.headD "") = true) ↔ (∀ a ∈ l, ∀ b ∈ l, a = b) := by
  cases l with
  | nil => exact absurd rfl hl
  | cons x xs =>
    simp only [List.headD_cons, List.all_eq_true, beq_iff_eq]
    constructor
    · intro h a ha b hb
      rw [h a ha, h b hb]
    · intro h a ha
      exact h a ha x (List.mem_cons_self x xs)

theorem vfo_file_details (subdir : String) (images : List (String × OcrOutcome)) :
    (validate_folder_one subdir images).file_details = images.map detailOf := by
  rw [validate_folder_one_eq]
  by_cases hns : (truthyNames (images.map detailOf)).isEmpty <;> simp [hns]

theorem vfo_is_correct (subdir : String) (images : List (String × OcrOutcome)) :
    (validate_folder_one subdir images).is_correct =
      (!(truthyNames (images.map detailOf)).isEmpty &&
        (truthyNames (images.map detailOf)).all
          (fun n => n == (truthyNames (images.map detailOf)).headD "")) := by
  rw [validate_folder_one_eq]
  by_cases hns : (truthyNames (images.map detailOf)).isEmpty <;> simp [hns]

theorem vfo_verified_name (subdir : String) (images : List (String × OcrOutcome)) :
    (validate_folder_one subdir images).verified_name =
      (if (validate_folder_one subdir images).is_correct then
        some ((truthyNames (images.map detailOf)).headD "")
      else none) := by
  rw [validate_folder_one_eq]
  by_cases hns : (truthyNames (images.map detailOf)).isEmpty <;> simp [hns]

theorem vfo_errors (subdir : String) (images : List (String × OcrOutcome)) :
    (validate_folder_one subdir images).errors =
      (if (truthyNames (images.map detailOf)).isEmpty then []
      else (images.map detailOf).filterMap
        (errSel
          ((truthyNames (images.map detailOf)).all
            (fun n => n == (truthyNames (images.map detailOf)).headD ""))
          ((truthyNames (images.map detailOf)).headD ""))) := by
  rw [validate_folder_one_eq]
  by_cases hns : (truthyNames (images.map detailOf)).isEmpty <;> simp [hns]

/-- Claim C1 counterexample: a folder with one image whose transcript is the
single line `"Le candidat(e):"`. The keyword extractor yields the map binding
the combined-candidate label to `":"`, which the formatter turns into the
EMPTY string — a FormattedName that was extracted and (trivially) identical
to every extracted FormattedName — yet `is_correct` is `false`, because the
truthiness test `if formatted_name:` in the source silently drops empty strings
from `extracted_names`. -/
theorem C1_counterexample :
    ¬((validate_folder_one "AA000_X" [("a.png", some ("Le candidat(e):", []))]).is_correct
          = true ↔
      (allExtractedNames (validate_folder_one "AA000_X"
            [("a.png", some ("Le candidat(e):", []))]).file_details ≠ [] ∧
        ∀ a ∈ allExtractedNames (validate_folder_one "AA000_X"
            [("a.png", some ("Le candidat(e):", []))]).file_details,
          ∀ b ∈ allExtractedNames (validate_folder_one "AA000_X"
              [("a.png", some ("Le candidat(e):", []))]).file_details, a = b)) := by
  decide

/-- Claim C1 (amended): for every folder with at least one image,
`is_correct` is true iff at least one NON-EMPTY FormattedName was extracted
and all non-empty extracted FormattedNames are identical (exact string
equality); `verified_name` equals that common name when `is_correct` holds
and is absent otherwise. -/
theorem C1_amended_thm (subdir : String) (images : List (String × OcrOutcome))
    (_h : images ≠ []) :
    ((validate_folder_one subdir images).is_correct = true ↔
      (truthyNames ((validate_folder_one subdir images).file_details) ≠ [] ∧
        ∀ a ∈ truthyNames ((validate_folder_one subdir images).file_details),
          ∀ b ∈ truthyNames ((validate_folder_one subdir images).file_details), a = b)) ∧
      ((validate_folder_one subdir images).is_correct = true →
        ∀ a ∈ truthyNames ((validate_folder_one subdir images).file_details),
          (validate_folder_one subdir images).verified_name = some a) ∧
      ((validate_folder_one subdir images).is_correct = false →
        (validate_folder_one subdir images).verified_name = none) := by
  rw [vfo_file_details, vfo_is_correct, vfo_verified_name, vfo_is_correct]
  by_cases hns : (truthyNames (images.map detailOf)).isEmpty
  · have hempty : truthyNames (images.map detailOf) = [] := by
      simpa using hns
    simp [hns, hempty]
  · have hne : truthyNames (images.map detailOf) ≠ [] := by
      simpa using hns
    refine ⟨?_, ?_, ?_⟩
    · rw [Bool.and_eq_true]
      constructor
      · rintro ⟨-, hall⟩
        exact ⟨hne, (all_eq_headD_iff _ hne).mp hall⟩
      · rintro ⟨-, hp⟩
        exact ⟨by simp [hns], (all_eq_headD_iff _ hne).mpr hp⟩
    · intro hc a ha
      rw [Bool.and_eq_true] at hc
      have ha2 := List.all_eq_true.mp hc.2 a ha
      have : a = (truthyNames (images.map detailOf)).headD "" := by
        exact_mod_cast beq_iff_eq.mp ha2
      rw [hc.1, hc.2]
      simp [this]
    · intro hc
      rw [hc]
      simp

/-- Witness for C1 at a one-image folder whose transcript is
`"Prénom: Jean\nNom: Dupont"`: the folder is non-empty, the verifier marks it
correct and verifies the common name `"Jean Dupont"`. -/
theorem C1_amended_witness :
    ([("a.png", some ("Prénom: Jean\nNom: Dupont", []))] : List (String × OcrOutcome)) ≠ [] ∧
      (validate_folder_one "AB123_X"
          [("a.png", some ("Prénom: Jean\nNom: Dupont", []))]).is_correct = true ∧
      (validate_folder_one "AB123_X"
          [("a.png", some ("Prénom: Jean\nNom: Dupont", []))]).verified_name
        = some "Jean Dupont" := by
  have h := C1_amended_thm "AB123_X" [("a.png", some ("Prénom: Jean\nNom: Dupont", []))]
    (by simp)
  have hc : (validate_folder_one "AB123_X"
      [("a.png", some ("Prénom: Jean\nNom: Dupont", []))]).is_correct = true :=
    h.1.mpr (by decide)
  exact ⟨by simp, hc, h.2.1 hc "Jean Dupont" (by decide)⟩

/-- Claim C2 counterexample: a folder whose only image yields no
FormattedName at all. The claim promises one "extraction failed" record even
then; but the error loop of `validate_folder` sits inside
`if extracted_names:`, so with no extracted name the errors list stays
empty. -/
theorem C2_counterexample :
    (validate_folder_one "AA000_X" [("a.png", some ("zzz", []))]).file_details.map
        (fun d => d.extracted_name) = [none] ∧
      (validate_folder_one "AA000_X" [("a.png", some ("zzz", []))]).errors = [] := by
  decide

theorem strData_append (a b : String) : (a ++ b).data = a.data ++ b.data := by
  cases a
  cases b
  rfl

theorem mismatchMsg_data (n : String) :
    (mismatchMsg n).data
      = ("Name mismatch: found \x27".data ++ n.data) ++ "\x27".data := by
  unfold mismatchMsg
  rw [strData_append, strData_append]

theorem mismatchMsg_ne_noName (n : String) : mismatchMsg n ≠ noNameMsg := by
  intro h
  have hd := congrArg String.data h
  rw [mismatchMsg_data] at hd
  have len1 : (1 : Nat) < "Name mismatch: found \x27".data.length := by decide
  have len2 : (1 : Nat) < ("Name mismatch: found \x27".data ++ n.data).length := by
    rw [List.length_append]
    omega
  have hidx : (("Name mismatch: found \x27".data ++ n.data) ++ "\x27".data)[1]?
      = "Name mismatch: found \x27".data[1]? := by
    rw [List.getElem?_append, if_pos len2, List.getElem?_append, if_pos len1]
  rw [hd] at hidx
  revert hidx
  decide

theorem mismatchMsg_inj {a b : String} (h : mismatchMsg a = mismatchMsg b) : a = b := by
  have hd := congrArg String.data h
  rw [mismatchMsg_data, mismatchMsg_data] at hd
  have h1 := List.append_cancel_right hd
  have h2 := List.append_cancel_left h1
  cases a
  cases b
  exact congrArg String.mk h2

theorem errSel_no_name (b : Bool) (f : String) (d : FileDetail)
    (h1 : pyTruthyStr d.extracted_name = false) :
    errSel b f d = some ⟨d.file, noNameMsg⟩ := by
  unfold errSel
  simp [h1]

theorem errSel_mismatch (b : Bool) (f : String) (d : FileDetail)
    (h1 : pyTruthyStr d.extracted_name = true)
    (h2 : (!b && d.extracted_name.getD "" != f) = true) :
    errSel b f d = some ⟨d.file, mismatchMsg (d.extracted_name.getD "")⟩ := by
  unfold errSel
  simp [h1, h2]

theorem errSel_skip (b : Bool) (f : String) (d : FileDetail)
    (h1 : pyTruthyStr d.extracted_name = true)
    (h2 : (!b && d.extracted_name.getD "" != f) = false) :
    errSel b f d = none := by
  unfold errSel
  simp [h1, h2]

theorem filter_noName_filterMap (b : Bool) (f : String) (l : List FileDetail) :
    (l.filterMap (errSel b f)).filter (fun e => e.error == noNameMsg)
      = (l.filter (fun d => !pyTruthyStr d.extracted_name)).map
          (fun d => (⟨d.file, noNameMsg⟩ : ErrRec)) := by
  induction l with
  | nil => rfl
  | cons d t ih =>
    rw [List.filterMap_cons, List.filter_cons]
    by_cases h1 : pyTruthyStr d.extracted_name
    · by_cases h2 : (!b && d.extracted_name.getD "" != f) = true
      · have hne : (mismatchMsg (d.extracted_name.getD "") == noNameMsg) = false := by
          rw [beq_eq_false_iff_ne]
          exact mismatchMsg_ne_noName _
        rw [errSel_mismatch b f d h1 h2]
        simp [h1, hne, ih]
      · rw [errSel_skip b f d h1 (by simpa using h2)]
        simp [h1, ih]
    · rw [errSel_no_name b f d (by simpa using h1)]
      simp [h1, ih]

theorem filter_mismatch_filterMap (b : Bool) (f : String) (l : List FileDetail) :
    (l.filterMap (errSel b f)).filter (fun e => !(e.error == noNameMsg))
      = (l.filter (fun d =>
            pyTruthyStr d.extracted_name && (!b && d.extracted_name.getD "" != f))).map
          (fun d => (⟨d.file, mismatchMsg (d.extracted_name.getD "")⟩ : ErrRec)) := by
  induction l with
  | nil => rfl
  | cons d t ih =>
    rw [List.filterMap_cons, List.filter_cons]
    by_cases h1 : pyTruthyStr d.extracted_name
    · by_cases h2 : (!b && d.extracted_name.getD "" != f) = true
      · have hne : (mismatchMsg (d.extracted_name.getD "") == noNameMsg) = false := by
          rw [beq_eq_false_iff_ne]
          exact mismatchMsg_ne_noName _
        rw [errSel_mismatch b f d h1 h2]
        simp [h1, h2, hne, ih]
      · rw [errSel_skip b f d h1 (by simpa using h2)]
        simp [h1, h2, ih]
    · rw [errSel_no_name b f d (by simpa using h1)]
      simp [h1, ih]

/-- Claim C2 (amended): provided the folder yielded at least one non-empty
FormattedName, exactly the processed files whose FormattedName is absent or
empty produce one "extraction failed" error record each, in file order
(first conjunct); when no file yields a non-empty FormattedName, the errors
list is empty — no record of any kind (second conjunct). (Files without a
truthy FormattedName are excluded from the baseline computation by
construction of `truthyNames`.) -/
theorem C2_amended_thm (subdir : String) (images : List (String × OcrOutcome)) :
    ((validate_folder_one subdir images).errors.filter (fun e => e.error == noNameMsg)
      = (if (truthyNames ((validate_folder_one subdir images).file_details)).isEmpty then
          ([] : List ErrRec)
        else
          ((validate_folder_one subdir images).file_details.filter
              (fun d => !pyTruthyStr d.extracted_name)).map
            (fun d => (⟨d.file, noNameMsg⟩ : ErrRec)))) ∧
      ((truthyNames ((validate_folder_one subdir images).file_details)).isEmpty = true →
        (validate_folder_one subdir images).errors = []) := by
  constructor
  · rw [vfo_errors, vfo_file_details]
    by_cases hns : (truthyNames (images.map detailOf)).isEmpty
    · simp [hns]
    · rw [if_neg hns, if_neg hns, filter_noName_filterMap]
  · intro hempty
    rw [vfo_file_details] at hempty
    rw [vfo_errors, if_pos hempty]

/-- Witness for the conditional conjunct of C2 at a folder of one image
yielding no FormattedName: no truthy name exists and the errors list is
entirely empty. -/
theorem C2_amended_witness :
    (truthyNames ((validate_folder_one "AA000_X"
          [("a.png", some ("zzz", []))]).file_details)).isEmpty = true ∧
      (validate_folder_one "AA000_X" [("a.png", some ("zzz", []))]).errors = [] :=
  ⟨by decide, (C2_amended_thm "AA000_X" [("a.png", some ("zzz", []))]).2 (by decide)⟩

theorem errSel_not_baseline (f : String) (l : List FileDetail) :
    ∀ e ∈ l.filterMap (errSel false f), e.error ≠ mismatchMsg f := by
  intro e he
  rw [List.mem_filterMap] at he
  obtain ⟨d, _, hsel⟩ := he
  by_cases h1 : pyTruthyStr d.extracted_name
  · by_cases h2 : (!false && d.extracted_name.getD "" != f) = true
    · rw [errSel_mismatch false f d h1 h2] at hsel
      have he2 : e = (⟨d.file, mismatchMsg (d.extracted_name.getD "")⟩ : ErrRec) :=
        (Option.some_inj.mp hsel).symm
      have hne : d.extracted_name.getD "" ≠ f := by
        simpa using h2
      rw [he2]
      intro hc
      exact hne (mismatchMsg_inj hc)
    · rw [errSel_skip false f d h1 (by simpa using h2)] at hsel
      simp at hsel
  · rw [errSel_no_name false f d (by simpa using h1)] at hsel
    have he2 : e = (⟨d.file, noNameMsg⟩ : ErrRec) :=
      (Option.some_inj.mp hsel).symm
    rw [he2]
    intro hc
    exact mismatchMsg_ne_noName f hc.symm

/-- The folder of the C5 analysis: two images with distinct proper names
(`"A B"`, `"C D"`) and a third whose formatter yields the empty string. -/
def c5folder : List (String × OcrOutcome) :=
  [("a.png", some ("Prénom: A\nNom: B", [])),
    ("b.png", some ("Prénom: C\nNom: D", [])),
    ("c.png", some ("Le candidat(e):", []))]

/-- Claim C5 counterexample: in `c5folder` the folder is inconsistent
(`is_correct = false`, baseline `"A B"`), and the FormattedName extracted
for `c.png` is the EMPTY string — which differs from the baseline — yet
`c.png` receives only the "extraction failed" record, never a "name
mismatch" record: the error loop tests Python truthiness, not absence, so
the set of mismatch-flagged files is NOT "exactly the files whose extracted
FormattedName differs from the first extracted name". -/
theorem C5_counterexample :
    (validate_folder_one "S1" c5folder).is_correct = false ∧
      truthyNames (validate_folder_one "S1" c5folder).file_details ≠ [] ∧
      (validate_folder_one "S1" c5folder).file_details.map (fun d => d.extracted_name)
        = [some "A B", some "C D", some ""] ∧
      (∀ e ∈ (validate_folder_one "S1" c5folder).errors,
        e.file = "c.png" → e.error = noNameMsg) := by
  decide

/-- Claim C5 (amended): when the folder is not fully consistent
(`is_correct` false with at least one truthy extracted name), exactly the
files with a TRUTHY (non-empty) extracted FormattedName differing from the
first truthy extracted name receive a "name mismatch" error record (first
conjunct), and no error record ever carries the mismatch message of the baseline name
message — in particular the file that provided the baseline is never
flagged (second conjunct). -/
theorem C5_amended_thm (subdir : String) (images : List (String × OcrOutcome))
    (h1 : truthyNames ((validate_folder_one subdir images).file_details) ≠ [])
    (h2 : (validate_folder_one subdir images).is_correct = false) :
    ((validate_folder_one subdir images).errors.filter (fun e => !(e.error == noNameMsg))
      = (((validate_folder_one subdir images).file_details).filter
            (fun d => pyTruthyStr d.extracted_name &&
              d.extracted_name.getD ""
                != (truthyNames ((validate_folder_one subdir images).file_details)).headD "")).map
          (fun d => (⟨d.file, mismatchMsg (d.extracted_name.getD "")⟩ : ErrRec))) ∧
      ∀ e ∈ (validate_folder_one subdir images).errors,
        e.error ≠ mismatchMsg
          ((truthyNames ((validate_folder_one subdir images).file_details)).headD "") := by
  rw [vfo_file_details] at h1 ⊢
  rw [vfo_is_correct] at h2
  rw [vfo_errors]
  have hns : (truthyNames (images.map detailOf)).isEmpty = false := by
    simpa using h1
  rw [if_neg (by simp [hns])]
  have hall : (truthyNames (images.map detailOf)).all
      (fun n => n == (truthyNames (images.map detailOf)).headD "") = false := by
    rw [hns] at h2
    simpa using h2
  rw [hall]
  constructor
  · rw [filter_mismatch_filterMap]
    simp
  · exact errSel_not_baseline _ _

/-- Witness for C5 at `c5folder`: both hypotheses hold and the mismatch
records are exactly the one for `b.png` with found name `"C D"`. -/
theorem C5_amended_witness :
    truthyNames (validate_folder_one "S1" c5folder).file_details ≠ [] ∧
      (validate_folder_one "S1" c5folder).is_correct = false ∧
      (validate_folder_one "S1" c5folder).errors.filter (fun e => !(e.error == noNameMsg))
        = [⟨"b.png", mismatchMsg "C D"⟩] := by
  have h := C5_amended_thm "S1" c5folder (by decide) (by decide)
  exact ⟨by decide, by decide, h.1.trans (by decide)⟩

/-! ### The standalone batch-comparison path (`compare_names_in_folder`) -/

/-- The per-image pipeline shared by both folder paths:
`names = process_image(...)` followed by
`reformat_name(names) if names else None`. -/
def formattedOf (ocr : OcrOutcome) : Option String :=
  let names := process_image ocr
  if pyTruthyDict names then reformat_name (names.getD []) else none

/-- One `student_result` record of `compare_names_in_folder` (it has NO
error field: the record built at lines 131–138 of `app.py` carries only
these six keys). -/
structure StudentResult where
  cin : String
  folder_name : String
  extracted_names : List String
  is_correct : Bool
  verified_name : Option String
  files_processed : List (String × String)
deriving DecidableEq, Repr

/-- Lines 140–149 of `app.py`, one loop iteration: only when `names` is
truthy AND the formatted name is truthy are the name and the
`files_processed` entry appended. -/
def compareStep (acc : List String × List (String × String)) (fp : String × OcrOutcome) :
    List String × List (String × String) :=
  let names := process_image fp.2
  if pyTruthyDict names then
    let formatted_name := reformat_name (names.getD [])
    if pyTruthyStr formatted_name then
      (acc.1 ++ [formatted_name.getD ""], acc.2 ++ [(fp.1, formatted_name.getD "")])
    else acc
  else acc

/-- The per-folder body of `compare_names_in_folder` (lines 128–157 of
`app.py`). -/
def compare_names_one (subdir : String) (images : List (String × OcrOutcome)) :
    StudentResult :=
  let cin := if strContains subdir "_" then (pySplitChar '_' subdir).getD 0 "" else "Unknown"
  let ens := images.foldl compareStep ([], [])
  let extracted_names := ens.1
  let files_processed := ens.2
  if extracted_names.isEmpty then
    ⟨cin, subdir, extracted_names, false, none, files_processed⟩
  else
    let first_name := extracted_names.headD ""
    if extracted_names.all (fun name => name == first_name) then
      ⟨cin, subdir, extracted_names, true, some first_name, files_processed⟩
    else
      ⟨cin, subdir, extracted_names, false, none, files_processed⟩

theorem compareStep_foldl (l : List (String × OcrOutcome)) (a : List String)
    (b : List (String × String)) :
    l.foldl compareStep (a, b)
      = (a ++ l.filterMap (fun fp =>
            match formattedOf fp.2 with
            | some s => if !s.isEmpty then some s else none
            | none => none),
          b ++ l.filterMap (fun fp =>
            match formattedOf fp.2 with
            | some s => if !s.isEmpty then some (fp.1, s) else none
            | none => none)) := by
  induction l generalizing a b with
  | nil => simp
  | cons fp t ih =>
    rw [List.foldl_cons]
    by_cases hd : pyTruthyDict (process_image fp.2)
    · cases hfm : reformat_name ((process_image fp.2).getD []) with
      | none =>
        have hcs : compareStep (a, b) fp = (a, b) := by
          unfold compareStep
          simp [hd, hfm, pyTruthyStr]
        have hfo : formattedOf fp.2 = none := by
          unfold formattedOf
          simp [hd, hfm]
        rw [hcs, ih]
        simp [List.filterMap_cons, hfo]
      | some s =>
        have hfo : formattedOf fp.2 = some s := by
          unfold formattedOf
          simp [hd, hfm]
        by_cases hs : s.isEmpty
        · have hcs : compareStep (a, b) fp = (a, b) := by
            unfold compareStep
            simp [hd, hfm, pyTruthyStr, hs]
          rw [hcs, ih]
          simp [List.filterMap_cons, hfo, hs]
        · have hcs : compareStep (a, b) fp = (a ++ [s], b ++ [(fp.1, s)]) := by
            unfold compareStep
            simp [hd, hfm, pyTruthyStr, hs]
          rw [hcs, ih]
          simp [List.filterMap_cons, hfo, hs, List.append_assoc]
    · have hcs : compareStep (a, b) fp = (a, b) := by
        unfold compareStep
        simp [hd]
      have hfo : formattedOf fp.2 = none := by
        unfold formattedOf
        simp [hd]
      rw [hcs, ih]
      simp [List.filterMap_cons, hfo]

theorem cno_fields (subdir : String) (images : List (String × OcrOutcome)) :
    (compare_names_one subdir images).extracted_names
        = (images.foldl compareStep ([], [])).1 ∧
      (compare_names_one subdir images).files_processed
        = (images.foldl compareStep ([], [])).2 := by
  simp only [compare_names_one]
  by_cases he : (images.foldl compareStep ([], [])).1.isEmpty = true
  · rw [if_pos he]
    exact ⟨rfl, rfl⟩
  · rw [if_neg he]
    by_cases ha : ((images.foldl compareStep ([], [])).1.all
        (fun name => name == (images.foldl compareStep ([], [])).1.headD "")) = true
    · rw [if_pos ha]
      exact ⟨rfl, rfl⟩
    · rw [if_neg ha]
      exact ⟨rfl, rfl⟩

theorem filterMap_map_snd (l : List (String × OcrOutcome)) :
    l.filterMap (fun fp =>
        match formattedOf fp.2 with
        | some s => if !s.isEmpty then some s else none
        | none => none)
      = (l.filterMap (fun fp =>
          match formattedOf fp.2 with
          | some s => if !s.isEmpty then some (fp.1, s) else none
          | none => none)).map (fun e => e.2) := by
  have hfun : (fun (fp : String × OcrOutcome) =>
      match formattedOf fp.2 with
      | some s => if !s.isEmpty then some s else none
      | none => none)
    = (fun (fp : String × OcrOutcome) => Option.map (fun (e : String × String) => e.2)
        (match formattedOf fp.2 with
          | some s => if !s.isEmpty then some (fp.1, s) else none
          | none => none)) := by
    funext fp
    cases formattedOf fp.2 with
    | none => rfl
    | some s =>
      by_cases hs : s.isEmpty
      · simp [hs]
      · simp [hs]
  rw [List.map_filterMap, hfun]

/-- Claim C10 counterexample: for the image whose transcript is
`"Le candidat(e):"`, the per-image pipeline DOES extract a FormattedName —
the empty string — yet the batch-comparison path records no
`files_processed` entry for it (the `if formatted_name:` truthiness test
drops it), so `files_processed` does not contain exactly the files for
which a FormattedName was extracted. -/
theorem C10_counterexample :
    formattedOf (some ("Le candidat(e):", [])) = some "" ∧
      (compare_names_one "AB123_X"
          [("a.png", some ("Le candidat(e):", []))]).files_processed = [] := by
  decide

/-- Claim C10 (amended): in the batch-comparison path, `files_processed`
contains exactly the files for which a NON-EMPTY FormattedName was
extracted, in order (first conjunct): an image whose extraction or
formatting fails — or yields the empty string — produces no entry at all;
and the result carries no error record of any kind: its only per-file
outputs are `files_processed` and the parallel `extracted_names` list
(second conjunct; the `StudentResult` record has no error field). -/
theorem C10_amended_thm (subdir : String) (images : List (String × OcrOutcome)) :
    (compare_names_one subdir images).files_processed
        = images.filterMap (fun fp =>
            match formattedOf fp.2 with
            | some s => if !s.isEmpty then some (fp.1, s) else none
            | none => none) ∧
      (compare_names_one subdir images).extracted_names
        = (compare_names_one subdir images).files_processed.map (fun e => e.2) := by
  obtain ⟨he, hf⟩ := cno_fields subdir images
  have hfold := compareStep_foldl images [] []
  constructor
  · rw [hf, hfold]
    simp
  · rw [he, hf, hfold]
    simp only [List.nil_append]
    exact filterMap_map_snd images
